import Mathlib

/-!
Verification of the `UserId` controller (`src/ctrl/user-id.js`): a shallow
embedding of the controller's three generator methods (`batch`, `getVerfied`,
`remove`) together with a model of the injected MongoDB client capability,
and proofs of the specified properties.

The store is modelled as a list of user-id documents. The mongo client is an
injected collaborator whose code is not part of this repository; its `list`
and `remove` operations are modelled from the spec (equality-filter queries
and bulk deletes over one collection), while `batch` (insert-many) is kept
abstract — a parameter reporting the new store contents and `insertedCount` —
because the controller's error handling quantifies over every possible count
the store may report.
-/

namespace Keyserver

/-- A user-id document, as described in the header comment of
`src/ctrl/user-id.js`: `_id` is assigned by MongoDB (absent on a draft),
`email`, `name`, `keyid`, `nonce` are strings, `verified` is a boolean. -/
structure UserIdRecord where
  id : Option Nat
  email : String
  name : String
  keyid : String
  nonce : String
  verified : Bool
deriving DecidableEq, Repr

/-- A candidate entry of `options.userIds` passed to `getVerfied`; the code
reads only its `email` field (`this._mongo.list({ email:uid.email }, ...)`). -/
structure Candidate where
  email : String
deriving DecidableEq, Repr

/-- An equality filter passed to the mongo client, as used by the controller:
`{ keyid }`, `{ email }`. -/
inductive DbFilter where
  | byKeyid (k : String)
  | byEmail (e : String)
deriving DecidableEq, Repr

/-- Whether a document matches an equality filter. -/
def DbFilter.matches : DbFilter → UserIdRecord → Bool
  | .byKeyid k, r => r.keyid == k
  | .byEmail e, r => r.email == e

/-- Modelled from the spec: the mongo client's `find`/`list` operation
(`find(filter, collectionName) -> sequence of records`) returns all documents
matching an equality filter, in store order; the adapter's code is not under
`src/`. -/
def mongoList (f : DbFilter) (store : List UserIdRecord) : List UserIdRecord :=
  store.filter f.matches

/-- Modelled from the spec: the mongo client's `deleteMany` operation
(`deleteMany(filter, collectionName) -> void`) deletes all documents matching
an equality filter; the adapter's code is not under `src/`. -/
def mongoRemove (f : DbFilter) (store : List UserIdRecord) : List UserIdRecord :=
  store.filter (fun r => !f.matches r)

/-- Modelled from the spec: the all-successful behaviour of the mongo client's
`insertMany` (`insertMany(records, collectionName) -> \x7binsertedCount\x7d`):
every given record is inserted and the reported count is the number of
records given. Used as one possible instantiation of the abstract insert
behaviour. -/
def mongoBatchAll (records store : List UserIdRecord) :
    List UserIdRecord × Nat :=
  (store ++ records, records.length)

/-- One iteration of `options.userIds.forEach(u => u.keyid = options.keyid)`:
the draft's `keyid` field is overwritten with the supplied key id; all other
fields are untouched. -/
def stampKeyid (k : String) (u : UserIdRecord) : UserIdRecord :=
  { u with keyid := k }

/-- Embeds `UserId.batch(options)`.

```
*batch(options) {
  options.userIds.forEach(u => u.keyid = options.keyid);
  let r = yield this._mongo.batch(options.userIds, DB_TYPE);
  if (r.insertedCount !== options.userIds.length) {
    throw new Error('Failed to persist user ids');
  }
}
```

`mongoBatch` is the injected client's insert behaviour: given the submitted
records and the current store it yields the new store contents and the
reported `insertedCount`. The result triple is
(generator outcome, the caller's `userIds` array after the call, the store
after the call). The outcome is `.error msg` when the generator throws; on
normal completion it is `.ok v` where `v` is the generator's return value —
`none` standing for JavaScript `undefined`, since the generator body contains
no `return` statement. -/
def UserId.batch
    (mongoBatch : List UserIdRecord → List UserIdRecord → List UserIdRecord × Nat)
    (keyid : String) (userIds : List UserIdRecord) (store : List UserIdRecord) :
    Except String (Option (List UserIdRecord)) × List UserIdRecord × List UserIdRecord :=
  let stamped := userIds.map (stampKeyid keyid)
  let res := mongoBatch stamped store
  if res.2 ≠ stamped.length then
    (.error "Failed to persist user ids", stamped, res.1)
  else
    (.ok none, stamped, res.1)

/-- A request issued by the controller to the mongo client. -/
inductive DbCall where
  | list (f : DbFilter)
  | batchCall (records : List UserIdRecord)
  | removeCall (f : DbFilter)
deriving DecidableEq, Repr

/-- A `list` call is a pure query; `batch` and `remove` are writes. -/
def DbCall.isRead : DbCall → Bool
  | .list _ => true
  | .batchCall _ => false
  | .removeCall _ => false

/-- Modelled from the spec: the effect of one mongo call on the store
contents (`find` is a query and changes nothing; `insertMany` in its
all-successful behaviour appends; `deleteMany` removes every match). -/
def DbCall.applyTo (store : List UserIdRecord) : DbCall → List UserIdRecord
  | .list _ => store
  | .batchCall rs => store ++ rs
  | .removeCall f => mongoRemove f store

/-- Runs a sequence of mongo calls against a store, in order. -/
def runCalls (calls : List DbCall) (store : List UserIdRecord) : List UserIdRecord :=
  calls.foldl DbCall.applyTo store

/-- The key-id lookup of `getVerfied`:
`(yield this._mongo.list({ keyid }, DB_TYPE)).find(u => u.verified)`. -/
def keyidLookup (k : String) (store : List UserIdRecord) : Option UserIdRecord :=
  (mongoList (DbFilter.byKeyid k) store).find? (fun u => u.verified)

/-- The per-candidate email lookup of `getVerfied`:
`(yield this._mongo.list({ email:uid.email }, DB_TYPE)).find(u => u.verified)`. -/
def emailLookup (e : String) (store : List UserIdRecord) : Option UserIdRecord :=
  (mongoList (DbFilter.byEmail e) store).find? (fun u => u.verified)

/-- The `for (let uid of userIds)` loop of `getVerfied`: queries the store by
each candidate's email in order and returns the first verified document,
short-circuiting; also records the trace of issued mongo calls. -/
def emailLoop : List Candidate → List UserIdRecord → Option UserIdRecord × List DbCall
  | [], _ => (none, [])
  | uid :: rest, store =>
    match emailLookup uid.email store with
    | some v => (some v, [DbCall.list (DbFilter.byEmail uid.email)])
    | none =>
      let r := emailLoop rest store
      (r.1, DbCall.list (DbFilter.byEmail uid.email) :: r.2)

/-- Embeds `UserId.getVerfied(options)` together with the trace of mongo
calls it issues.

```
*getVerfied(options) {
  let keyid = options.keyid, userIds = options.userIds;
  if (keyid) {
    let uids = yield this._mongo.list({ keyid }, DB_TYPE);
    let verified = uids.find(u => u.verified);
    if (verified) { return verified; }
  }
  if (userIds) {
    for (let uid of userIds) {
      let uids = yield this._mongo.list({ email:uid.email }, DB_TYPE);
      let verified = uids.find(u => u.verified);
      if (verified) { return verified; }
    }
  }
}
```

`keyid = none` models an absent `options.keyid` and `userIds = none` an
absent `options.userIds`. JavaScript truthiness is modelled faithfully: the
guard `if (keyid)` is false for the empty string, while an array (even an
empty one) is always truthy, so `some []` enters the loop (which then does
nothing). Falling off the end returns `undefined`, modelled as `none`.
`emailStep` is the second `if` statement (guard plus loop); `getVerfiedT`
wires the key-id step in front of it. -/
def emailStep (userIds : Option (List Candidate)) (store : List UserIdRecord) :
    Option UserIdRecord × List DbCall :=
  match userIds with
  | none => (none, [])
  | some uids => emailLoop uids store

def UserId.getVerfiedT (keyid : Option String) (userIds : Option (List Candidate))
    (store : List UserIdRecord) : Option UserIdRecord × List DbCall :=
  match keyid with
  | none => emailStep userIds store
  | some k =>
    if k = "" then emailStep userIds store
    else
      match keyidLookup k store with
      | some v => (some v, [DbCall.list (DbFilter.byKeyid k)])
      | none => ((emailStep userIds store).1,
                 DbCall.list (DbFilter.byKeyid k) :: (emailStep userIds store).2)

/-- The value returned by `UserId.getVerfied` (first component of the traced
embedding). -/
def UserId.getVerfied (keyid : Option String) (userIds : Option (List Candidate))
    (store : List UserIdRecord) : Option UserIdRecord :=
  (UserId.getVerfiedT keyid userIds store).1

/-- Embeds `UserId.remove(options)`:
`yield this._mongo.remove({ keyid:options.keyid }, DB_TYPE)`; returns the
store after the call. -/
def UserId.remove (keyid : String) (store : List UserIdRecord) : List UserIdRecord :=
  mongoRemove (DbFilter.byKeyid keyid) store

/-! ## Theorems -/

/-- C1: the claim says a successful `batchInsert` returns the sequence of
inserted records, count-for-count matching the input length — as the code's
own doc comment (`@yield {Array} A list of user ids`) also promises. The code
does not: its generator body contains no `return`, so on the success path
(store reports `insertedCount` equal to the input length, here under the
all-successful insert behaviour) the call completes with `undefined`
(`.ok none`), not a one-element record list. -/
theorem batch_success_returns_no_records :
    (UserId.batch mongoBatchAll "02C134D079701934"
        [{ id := none, email := "jon@example.com", name := "Jon Smith",
           keyid := "", nonce := "123e4567-e89b-12d3-a456-426655440000",
           verified := false }]
        []).1 = Except.ok none := by
  rfl

/-- C2: `batch` throws the persistence error exactly when the store's reported
`insertedCount` differs from the number of submitted records, and the store
is left exactly as the store's own insert operation left it — no compensating
write happens on either path. -/
theorem batch_persistence_error_iff
    (mongoBatch : List UserIdRecord → List UserIdRecord → List UserIdRecord × Nat)
    (keyid : String) (userIds store : List UserIdRecord) :
    ((UserId.batch mongoBatch keyid userIds store).1
        = Except.error "Failed to persist user ids"
      ↔ (mongoBatch (userIds.map (stampKeyid keyid)) store).2 ≠ userIds.length) ∧
    (UserId.batch mongoBatch keyid userIds store).2.2
      = (mongoBatch (userIds.map (stampKeyid keyid)) store).1 := by
  unfold UserId.batch
  by_cases h : (mongoBatch (userIds.map (stampKeyid keyid)) store).2 = userIds.length
  · simp [h]
  · simp [h]

/-- C5: every record `batch` submits to the store carries the supplied key id
(the caller's draft value is overwritten), and — under the all-successful
insert behaviour — every record in the store afterwards either was already
there or carries the supplied key id. -/
theorem batch_stamps_keyid
    (mongoBatch : List UserIdRecord → List UserIdRecord → List UserIdRecord × Nat)
    (keyid : String) (userIds store : List UserIdRecord) :
    (∀ r ∈ (UserId.batch mongoBatch keyid userIds store).2.1, r.keyid = keyid) ∧
    (∀ r ∈ (UserId.batch mongoBatchAll keyid userIds store).2.2,
      r ∈ store ∨ r.keyid = keyid) := by
  constructor
  · intro r hr
    have hr' : ∃ u ∈ userIds, stampKeyid keyid u = r := by
      unfold UserId.batch at hr
      by_cases h : (mongoBatch (userIds.map (stampKeyid keyid)) store).2
          = userIds.length <;> simp [h] at hr <;> exact hr
    rcases hr' with ⟨u, _, hu⟩
    rw [← hu]; rfl
  · intro r hr
    have hr' : r ∈ store ++ userIds.map (stampKeyid keyid) := by
      unfold UserId.batch mongoBatchAll at hr
      by_cases h : (userIds.map (stampKeyid keyid)).length
          = userIds.length <;> simp_all
    rcases List.mem_append.mp hr' with h | h
    · exact Or.inl h
    · rcases List.mem_map.mp h with ⟨u, _, hu⟩
      exact Or.inr (by rw [← hu]; rfl)

/-- C5 witness: at a concrete call, the one submitted record carries the
supplied key id in place of its draft value. -/
theorem batch_stamps_keyid_witness :
    ({ id := none, email := "jon@example.com", name := "Jon Smith",
       keyid := "02C134D079701934", nonce := "n", verified := false } :
        UserIdRecord).keyid = "02C134D079701934" :=
  (batch_stamps_keyid mongoBatchAll "02C134D079701934"
      [{ id := none, email := "jon@example.com", name := "Jon Smith",
         keyid := "AAAA", nonce := "n", verified := false }] []).1
    _ (by decide)

/-- C6 counterexample: `batch` does mutate in-memory state outside the store.
`options.userIds.forEach(u => u.keyid = options.keyid)` overwrites the
caller's draft objects in place: after this concrete call the caller's array
no longer equals the drafts that were passed in (its record's `keyid` changed
from `"AAAA"` to the supplied key id). -/
theorem batch_mutates_caller_drafts :
    ((UserId.batch mongoBatchAll "02C134D079701934"
        [{ id := none, email := "jon@example.com", name := "Jon Smith",
           keyid := "AAAA", nonce := "n", verified := false }] []).2.1
      ≠ [{ id := none, email := "jon@example.com", name := "Jon Smith",
           keyid := "AAAA", nonce := "n", verified := false }]) ∧
    (UserId.batch mongoBatchAll "02C134D079701934"
        [{ id := none, email := "jon@example.com", name := "Jon Smith",
           keyid := "AAAA", nonce := "n", verified := false }] []).2.1
      = [{ id := none, email := "jon@example.com", name := "Jon Smith",
           keyid := "02C134D079701934", nonce := "n", verified := false }] := by
  refine ⟨by decide, by decide⟩

/-- C6 (amended): the only in-memory mutation `batch` performs is stamping
the supplied key id onto each caller-supplied draft in place — every other
field of every draft is unchanged — and the only store effect is the store's
own insert: the store afterwards is exactly what the injected client's batch
operation produced. -/
theorem batch_frame
    (mongoBatch : List UserIdRecord → List UserIdRecord → List UserIdRecord × Nat)
    (keyid : String) (userIds store : List UserIdRecord) :
    (UserId.batch mongoBatch keyid userIds store).2.1
        = userIds.map (stampKeyid keyid) ∧
    (∀ u : UserIdRecord, (stampKeyid keyid u).id = u.id
      ∧ (stampKeyid keyid u).email = u.email
      ∧ (stampKeyid keyid u).name = u.name
      ∧ (stampKeyid keyid u).nonce = u.nonce
      ∧ (stampKeyid keyid u).verified = u.verified
      ∧ (stampKeyid keyid u).keyid = keyid) ∧
    (UserId.batch mongoBatch keyid userIds store).2.2
      = (mongoBatch (userIds.map (stampKeyid keyid)) store).1 := by
  refine ⟨?_, fun u => ⟨rfl, rfl, rfl, rfl, rfl, rfl⟩, ?_⟩ <;>
    · unfold UserId.batch
      by_cases h : (mongoBatch (userIds.map (stampKeyid keyid)) store).2
          = userIds.length <;> simp [h]

/-- C7: `remove` deletes exactly the records whose `keyid` matches the given
key — a record survives iff it was in the store and has a different `keyid` —
and a second call is a no-op (deleting zero matching records is not an
error: the operation is total and idempotent). -/
theorem remove_deletes_exactly_matching (K : String) (store : List UserIdRecord) :
    (∀ r, r ∈ UserId.remove K store ↔ r ∈ store ∧ r.keyid ≠ K) ∧
    UserId.remove K (UserId.remove K store) = UserId.remove K store := by
  constructor
  · intro r
    unfold UserId.remove mongoRemove
    simp [List.mem_filter, DbFilter.matches]
  · unfold UserId.remove mongoRemove
    simp [List.filter_filter]

/-! ### Lemmas about the two lookups and the candidate loop -/

theorem keyidLookup_some (K : String) (store : List UserIdRecord) (r : UserIdRecord)
    (h : keyidLookup K store = some r) : r ∈ store ∧ r.keyid = K ∧ r.verified = true := by
  have hv := List.find?_some h
  have hm := List.mem_of_find?_eq_some h
  unfold mongoList at hm
  have hm' := List.mem_filter.mp hm
  refine ⟨hm'.1, ?_, hv⟩
  simpa [DbFilter.matches] using hm'.2

theorem keyidLookup_eq_none (K : String) (store : List UserIdRecord) :
    keyidLookup K store = none ↔ ¬ ∃ r ∈ store, r.keyid = K ∧ r.verified = true := by
  unfold keyidLookup mongoList
  rw [List.find?_eq_none]
  constructor
  · rintro h ⟨r, hr, hk, hv⟩
    exact h r (List.mem_filter.mpr ⟨hr, by simp [DbFilter.matches, hk]⟩) (by simpa using hv)
  · intro h r hrf hv
    have hm := List.mem_filter.mp hrf
    exact h ⟨r, hm.1, by simpa [DbFilter.matches] using hm.2, by simpa using hv⟩

theorem emailLookup_some (e : String) (store : List UserIdRecord) (r : UserIdRecord)
    (h : emailLookup e store = some r) : r ∈ store ∧ r.email = e ∧ r.verified = true := by
  have hv := List.find?_some h
  have hm := List.mem_of_find?_eq_some h
  unfold mongoList at hm
  have hm' := List.mem_filter.mp hm
  refine ⟨hm'.1, ?_, hv⟩
  simpa [DbFilter.matches] using hm'.2

theorem emailLookup_eq_none (e : String) (store : List UserIdRecord) :
    emailLookup e store = none ↔ ¬ ∃ r ∈ store, r.email = e ∧ r.verified = true := by
  unfold emailLookup mongoList
  rw [List.find?_eq_none]
  constructor
  · rintro h ⟨r, hr, he, hv⟩
    exact h r (List.mem_filter.mpr ⟨hr, by simp [DbFilter.matches, he]⟩) (by simpa using hv)
  · intro h r hrf hv
    have hm := List.mem_filter.mp hrf
    exact h ⟨r, hm.1, by simpa [DbFilter.matches] using hm.2, by simpa using hv⟩

theorem emailLoop_fst_some (uids : List Candidate) (store : List UserIdRecord)
    (r : UserIdRecord) (h : (emailLoop uids store).1 = some r) :
    r.verified = true := by
  induction uids with
  | nil => simp [emailLoop] at h
  | cons uid rest ih =>
    unfold emailLoop at h
    cases he : emailLookup uid.email store with
    | some v =>
      rw [he] at h
      simp at h
      exact h ▸ (emailLookup_some uid.email store v he).2.2
    | none =>
      rw [he] at h
      exact ih h

theorem emailLoop_append_none (uids₁ uids₂ : List Candidate) (store : List UserIdRecord)
    (h : ∀ c ∈ uids₁, emailLookup c.email store = none) :
    (emailLoop (uids₁ ++ uids₂) store).1 = (emailLoop uids₂ store).1 := by
  induction uids₁ with
  | nil => rfl
  | cons uid rest ih =>
    have hu : emailLookup uid.email store = none := h uid (by simp)
    rw [List.cons_append]
    simp only [emailLoop, hu]
    exact ih fun c hc => h c (by simp [hc])

theorem emailLoop_fst_none (uids : List Candidate) (store : List UserIdRecord)
    (h : ∀ c ∈ uids, emailLookup c.email store = none) :
    (emailLoop uids store).1 = none := by
  have := emailLoop_append_none uids [] store h
  simpa [emailLoop] using this

theorem emailLoop_calls_read (uids : List Candidate) (store : List UserIdRecord) :
    ∀ call ∈ (emailLoop uids store).2, call.isRead = true := by
  induction uids with
  | nil => simp [emailLoop]
  | cons uid rest ih =>
    intro call hc
    unfold emailLoop at hc
    cases he : emailLookup uid.email store with
    | some v =>
      rw [he] at hc
      simp at hc
      rw [hc]
      rfl
    | none =>
      rw [he] at hc
      simp at hc
      rcases hc with rfl | hc
      · rfl
      · exact ih call hc

theorem runCalls_of_reads (calls : List DbCall) (s : List UserIdRecord)
    (h : ∀ c ∈ calls, c.isRead = true) : runCalls calls s = s := by
  induction calls with
  | nil => rfl
  | cons c cs ih =>
    cases c with
    | list f => exact ih fun c hc => h c (by simp [hc])
    | batchCall rs =>
      have hc := h (DbCall.batchCall rs) (by simp)
      simp [DbCall.isRead] at hc
    | removeCall f =>
      have hc := h (DbCall.removeCall f) (by simp)
      simp [DbCall.isRead] at hc

theorem getVerfiedT_keyid_none (userIds : Option (List Candidate))
    (store : List UserIdRecord) :
    UserId.getVerfiedT none userIds store = emailStep userIds store := rfl

theorem getVerfiedT_keyid_empty (userIds : Option (List Candidate))
    (store : List UserIdRecord) :
    UserId.getVerfiedT (some "") userIds store = emailStep userIds store := by
  unfold UserId.getVerfiedT
  simp

theorem getVerfiedT_keyid_found (k : String) (hk : k ≠ "")
    (userIds : Option (List Candidate)) (store : List UserIdRecord)
    (v : UserIdRecord) (hfind : keyidLookup k store = some v) :
    UserId.getVerfiedT (some k) userIds store
      = (some v, [DbCall.list (DbFilter.byKeyid k)]) := by
  unfold UserId.getVerfiedT
  simp [hk, hfind]

theorem getVerfiedT_keyid_miss (k : String) (hk : k ≠ "")
    (userIds : Option (List Candidate)) (store : List UserIdRecord)
    (hfind : keyidLookup k store = none) :
    UserId.getVerfiedT (some k) userIds store
      = ((emailStep userIds store).1,
         DbCall.list (DbFilter.byKeyid k) :: (emailStep userIds store).2) := by
  unfold UserId.getVerfiedT
  simp [hk, hfind]

theorem getVerfied_eq_keyidLookup (K : String) (hK : K ≠ "") (store : List UserIdRecord) :
    UserId.getVerfied (some K) none store = keyidLookup K store := by
  unfold UserId.getVerfied
  cases hfind : keyidLookup K store with
  | some v => rw [getVerfiedT_keyid_found K hK none store v hfind]
  | none =>
    rw [getVerfiedT_keyid_miss K hK none store hfind]
    rfl

/-- C3 counterexample: the claim quantifies over every key id, but for the
empty-string key id the JavaScript guard `if (keyid)` is false, so the
key-id lookup is skipped: `getVerfied` returns `undefined` even though the
store holds a record with matching `keyid` and `verified = true`. -/
theorem getVerfied_empty_keyid_counterexample :
    UserId.getVerfied (some "") none
        [{ id := some 1, email := "a@x", name := "A", keyid := "",
           nonce := "n", verified := true }] = none
      ∧ ({ id := some 1, email := "a@x", name := "A", keyid := "",
           nonce := "n", verified := true } : UserIdRecord).keyid = ""
      ∧ ({ id := some 1, email := "a@x", name := "A", keyid := "",
           nonce := "n", verified := true } : UserIdRecord).verified = true := by
  decide

/-- C3 (amended: for every non-empty keyId K): `getVerfied` called with key
id `K` and no candidate list returns a record with `keyid = K` and
`verified = true` exactly when such a record exists in the store, and
returns `undefined` exactly when none exists. -/
theorem getVerfied_by_keyid_iff (K : String) (hK : K ≠ "") (store : List UserIdRecord) :
    ((∃ r, UserId.getVerfied (some K) none store = some r
        ∧ r.keyid = K ∧ r.verified = true)
      ↔ ∃ r ∈ store, r.keyid = K ∧ r.verified = true) ∧
    (UserId.getVerfied (some K) none store = none
      ↔ ¬ ∃ r ∈ store, r.keyid = K ∧ r.verified = true) := by
  rw [getVerfied_eq_keyidLookup K hK]
  constructor
  · constructor
    · rintro ⟨r, hr, _, _⟩
      have := keyidLookup_some K store r hr
      exact ⟨r, this.1, this.2⟩
    · intro hex
      cases hfind : keyidLookup K store with
      | none => exact absurd hex ((keyidLookup_eq_none K store).mp hfind)
      | some r =>
        have := keyidLookup_some K store r hfind
        exact ⟨r, rfl, this.2⟩
  · rw [keyidLookup_eq_none]

/-- C3 witness: on a store holding an unverified and a verified record for
key `"ABCD"`, the call returns a record with that key id and
`verified = true`. -/
theorem getVerfied_by_keyid_iff_witness :
    ∃ r, UserId.getVerfied (some "ABCD") none
        [{ id := some 1, email := "a@x", name := "A", keyid := "ABCD",
           nonce := "n1", verified := false },
         { id := some 2, email := "a@x", name := "A", keyid := "ABCD",
           nonce := "n2", verified := true }] = some r
      ∧ r.keyid = "ABCD" ∧ r.verified = true :=
  (getVerfied_by_keyid_iff "ABCD" (by decide)
      [{ id := some 1, email := "a@x", name := "A", keyid := "ABCD",
         nonce := "n1", verified := false },
       { id := some 2, email := "a@x", name := "A", keyid := "ABCD",
         nonce := "n2", verified := true }]).1.mpr
    ⟨{ id := some 2, email := "a@x", name := "A", keyid := "ABCD",
       nonce := "n2", verified := true }, by decide, by decide, by decide⟩

/-- C4: when the key-id lookup yields no verified record, `getVerfied`
walks the candidate list in the given order: candidates whose email has no
verified record (unverified hits included) are passed over, and at the first
candidate whose email lookup finds a verified record that record is returned,
whatever candidates follow. -/
theorem getVerfied_candidates_in_order (keyid : Option String)
    (uids₁ uids₂ : List Candidate) (c : Candidate)
    (store : List UserIdRecord) (r : UserIdRecord)
    (h0 : ∀ k, keyid = some k → keyidLookup k store = none)
    (h1 : ∀ u ∈ uids₁, emailLookup u.email store = none)
    (h2 : emailLookup c.email store = some r) :
    UserId.getVerfied keyid (some (uids₁ ++ c :: uids₂)) store = some r := by
  have hloop : (emailStep (some (uids₁ ++ c :: uids₂)) store).1 = some r := by
    show (emailLoop (uids₁ ++ c :: uids₂) store).1 = some r
    rw [emailLoop_append_none uids₁ (c :: uids₂) store h1]
    simp [emailLoop, h2]
  unfold UserId.getVerfied
  cases keyid with
  | none => rw [getVerfiedT_keyid_none]; exact hloop
  | some k =>
    by_cases hk : k = ""
    · subst hk
      rw [getVerfiedT_keyid_empty]
      exact hloop
    · rw [getVerfiedT_keyid_miss k hk _ store (h0 k rfl)]
      exact hloop

/-- C4 witness: with candidates `[a@x, b@x]`, an unverified record for
`a@x` and a verified one for `b@x`, the `b@x` record is returned. -/
theorem getVerfied_candidates_in_order_witness :
    UserId.getVerfied none (some [⟨"a@x"⟩, ⟨"b@x"⟩])
        [{ id := some 1, email := "a@x", name := "A", keyid := "K1",
           nonce := "n1", verified := false },
         { id := some 2, email := "b@x", name := "B", keyid := "K2",
           nonce := "n2", verified := true }]
      = some { id := some 2, email := "b@x", name := "B", keyid := "K2",
               nonce := "n2", verified := true } :=
  getVerfied_candidates_in_order none [⟨"a@x"⟩] [] ⟨"b@x"⟩
    [{ id := some 1, email := "a@x", name := "A", keyid := "K1",
       nonce := "n1", verified := false },
     { id := some 2, email := "b@x", name := "B", keyid := "K2",
       nonce := "n2", verified := true }]
    { id := some 2, email := "b@x", name := "B", keyid := "K2",
      nonce := "n2", verified := true }
    (fun k hk => by cases hk) (by decide) (by decide)

/-- C8: `getVerfied` is read-only — every mongo call it issues is a `list`
query, and running its issued call trace against any store contents leaves
them exactly as they were. -/
theorem getVerfied_read_only (keyid : Option String)
    (userIds : Option (List Candidate)) (store : List UserIdRecord) :
    (∀ call ∈ (UserId.getVerfiedT keyid userIds store).2, call.isRead = true) ∧
    ∀ s, runCalls (UserId.getVerfiedT keyid userIds store).2 s = s := by
  have hstep2 : ∀ call ∈ (emailStep userIds store).2, call.isRead = true := by
    cases userIds with
    | none => simp [emailStep]
    | some uids => exact emailLoop_calls_read uids store
  have hreads : ∀ call ∈ (UserId.getVerfiedT keyid userIds store).2,
      call.isRead = true := by
    cases keyid with
    | none =>
      rw [getVerfiedT_keyid_none]
      exact hstep2
    | some k =>
      by_cases hk : k = ""
      · subst hk
        rw [getVerfiedT_keyid_empty]
        exact hstep2
      · cases hfind : keyidLookup k store with
        | some v =>
          rw [getVerfiedT_keyid_found k hk userIds store v hfind]
          intro call hc
          simp at hc
          subst hc
          rfl
        | none =>
          rw [getVerfiedT_keyid_miss k hk userIds store hfind]
          intro call hc
          simp at hc
          rcases hc with rfl | hc
          · rfl
          · exact hstep2 call hc
  exact ⟨hreads, fun s => runCalls_of_reads _ s hreads⟩

/-- C9: when no record in the store both is verified and matches the
supplied key id or any supplied candidate's email — in particular when
neither input is supplied at all — `getVerfied` completes normally with
`undefined` (no exception exists on any path of the embedded code). -/
theorem getVerfied_no_match_none (keyid : Option String)
    (userIds : Option (List Candidate)) (store : List UserIdRecord)
    (h : ∀ r ∈ store, r.verified = true →
        (∀ k, keyid = some k → r.keyid ≠ k) ∧
        (∀ uids, userIds = some uids → ∀ c ∈ uids, r.email ≠ c.email)) :
    UserId.getVerfied keyid userIds store = none := by
  have hkey : ∀ k, keyid = some k → keyidLookup k store = none := by
    intro k hk
    rw [keyidLookup_eq_none]
    rintro ⟨r, hr, hkid, hv⟩
    exact (h r hr hv).1 k hk hkid
  have hstep2 : ∀ uids, userIds = some uids → (emailLoop uids store).1 = none := by
    intro uids hu
    apply emailLoop_fst_none
    intro c hc
    rw [emailLookup_eq_none]
    rintro ⟨r, hr, he, hv⟩
    exact (h r hr hv).2 uids hu c hc he
  have hstep2' : (emailStep userIds store).1 = none := by
    cases hu : userIds with
    | none => rfl
    | some uids =>
      show (emailLoop uids store).1 = none
      exact hstep2 uids hu
  unfold UserId.getVerfied
  cases keyid with
  | none =>
    rw [getVerfiedT_keyid_none]
    exact hstep2'
  | some k =>
    by_cases hk : k = ""
    · subst hk
      rw [getVerfiedT_keyid_empty]
      exact hstep2'
    · rw [getVerfiedT_keyid_miss k hk userIds store (hkey k rfl)]
      exact hstep2'

/-- C9 witness: key id `"ABCD"` and candidate `a@x` supplied, but the only
verified record in the store has a different key id and email: the call
returns `undefined`. -/
theorem getVerfied_no_match_none_witness :
    UserId.getVerfied (some "ABCD") (some [⟨"a@x"⟩])
        [{ id := some 1, email := "b@x", name := "B", keyid := "EFGH",
           nonce := "n", verified := true }] = none :=
  getVerfied_no_match_none (some "ABCD") (some [⟨"a@x"⟩])
    [{ id := some 1, email := "b@x", name := "B", keyid := "EFGH",
       nonce := "n", verified := true }]
    (by
      intro r hr _
      simp at hr
      subst hr
      constructor
      · intro k hk
        injection hk with hk
        subst hk
        decide
      · intro uids hu c hc
        injection hu with hu
        subst hu
        simp at hc
        subst hc
        decide)

/-- C10: whatever the inputs and store contents, if `getVerfied` returns a
record (by either lookup path) that record has `verified = true`; an
unverified record is never returned. -/
theorem getVerfied_returns_verified (keyid : Option String)
    (userIds : Option (List Candidate)) (store : List UserIdRecord)
    (r : UserIdRecord) (h : UserId.getVerfied keyid userIds store = some r) :
    r.verified = true := by
  have hstep2 : (emailStep userIds store).1 = some r → r.verified = true := by
    cases userIds with
    | none => simp [emailStep]
    | some uids => exact emailLoop_fst_some uids store r
  unfold UserId.getVerfied at h
  cases keyid with
  | none =>
    rw [getVerfiedT_keyid_none] at h
    exact hstep2 h
  | some k =>
    by_cases hk : k = ""
    · subst hk
      rw [getVerfiedT_keyid_empty] at h
      exact hstep2 h
    · cases hfind : keyidLookup k store with
      | some v =>
        rw [getVerfiedT_keyid_found k hk userIds store v hfind] at h
        simp at h
        exact h ▸ (keyidLookup_some k store v hfind).2.2
      | none =>
        rw [getVerfiedT_keyid_miss k hk userIds store hfind] at h
        exact hstep2 h

/-- C10 witness: on a store whose `"ABCD"` lookup finds a verified record,
the returned record is verified. -/
theorem getVerfied_returns_verified_witness :
    ({ id := some 2, email := "a@x", name := "A", keyid := "ABCD",
       nonce := "n2", verified := true } : UserIdRecord).verified = true :=
  getVerfied_returns_verified (some "ABCD") none
    [{ id := some 2, email := "a@x", name := "A", keyid := "ABCD",
       nonce := "n2", verified := true }]
    { id := some 2, email := "a@x", name := "A", keyid := "ABCD",
      nonce := "n2", verified := true }
    (by decide)

end Keyserver
